import Mathlib

/-!
Shallow embedding of `src/streamlit_app.py` (jiabaoyu_social_network).

The program loads two CSV tables (nodes, edges), builds an undirected
weighted graph (`create_graph`, lines 88-100), and computes network
metrics (`calculate_metrics`, lines 102-112) via networkx / python-louvain.

Cell values of a parsed table are modelled by `SNA.Val` (Python `None`,
integers, strings) with Python truthiness; a row is an association list
from column names to values, `Series.get` returning `None` for a missing
column.  The networkx `Graph` is modelled by insertion-ordered node and
edge lists with dict semantics: re-adding a node updates its attributes,
re-adding an edge (in either orientation) overwrites the stored weight.
-/

namespace SNA

/-- A parsed cell value: Python `None`, an integer, or a string. -/
inductive Val where
  | vnone : Val
  | vint : Int → Val
  | vstr : String → Val
deriving DecidableEq

/-- Python truthiness of a `Val`: `None`, `0` and `""` are falsy. -/
def Val.truthy : Val → Bool
  | .vnone => false
  | .vint n => decide (n ≠ 0)
  | .vstr s => decide (s ≠ "")

/-- Python `a or b`: returns `a` when `a` is truthy, else `b`. -/
def pyOr (a b : Val) : Val := if a.truthy then a else b

/-- Python `str(x)` on a resolved identifier value. -/
def pyStr : Val → String
  | .vnone => "None"
  | .vint n => toString n
  | .vstr s => s

/-- A table row, as produced by `DataFrame.iterrows`: column name to value. -/
abbrev Row := List (String × Val)

/-- `row.get(k)`: the value of column `k`, or `None` when the column is absent
(the `pandas.Series.get` default). -/
def rowGet (r : Row) (k : String) : Val :=
  match r.find? (fun p => p.1 == k) with
  | some p => p.2
  | none => Val.vnone

/-- An edge record: source endpoint, target endpoint, stored weight. -/
abbrev Edge := Val × Val × Val

/-- The networkx `Graph`: insertion-ordered nodes (id, label attribute) and
undirected edges (endpoints with a weight attribute). -/
structure Graph where
  nodes : List (Val × Val)
  edges : List Edge
deriving DecidableEq

/-- `nx.Graph()`: the empty graph. -/
def emptyGraph : Graph := ⟨[], []⟩

/-- The node identifiers of a graph, in insertion order. -/
def nodeIds (G : Graph) : List Val := G.nodes.map Prod.fst

/-- Python `x in G.nodes`. -/
def hasNode (G : Graph) (x : Val) : Prop := x ∈ nodeIds G

instance (G : Graph) (x : Val) : Decidable (hasNode G x) := by
  unfold hasNode; exact inferInstance

/-- `e` joins the same unordered endpoint pair as `{u, v}`. -/
def samePair (e : Edge) (u v : Val) : Prop :=
  (e.1 = u ∧ e.2.1 = v) ∨ (e.1 = v ∧ e.2.1 = u)

instance (e : Edge) (u v : Val) : Decidable (samePair e u v) := by
  unfold samePair; exact inferInstance

/-- `G.add_node(i, label=l, title=l)` (line 93): dict insertion — a fresh id is
appended, an existing id has its attributes overwritten. -/
def add_node (G : Graph) (i l : Val) : Graph :=
  if hasNode G i then
    { G with nodes := G.nodes.map (fun p => if p.1 = i then (i, l) else p) }
  else
    { G with nodes := G.nodes ++ [(i, l)] }

/-- `G.add_edge(u, v, weight=w)` (line 99): undirected adjacency-dict insertion —
an edge between the same unordered pair overwrites the weight (last write
wins), otherwise the edge is appended. -/
def add_edge (G : Graph) (u v w : Val) : Graph :=
  if ∃ e ∈ G.edges, samePair e u v then
    { G with edges := G.edges.map (fun e => if samePair e u v then (e.1, e.2.1, w) else e) }
  else
    { G with edges := G.edges ++ [(u, v, w)] }

/-- `node_id = row.get('Id') or row.get('id')` (line 91). -/
def resolveNodeId (row : Row) : Val := pyOr (rowGet row "Id") (rowGet row "id")

/-- `label = row.get('Label') or row.get('label') or str(node_id)` (line 92). -/
def resolveLabel (row : Row) : Val :=
  pyOr (pyOr (rowGet row "Label") (rowGet row "label")) (Val.vstr (pyStr (resolveNodeId row)))

/-- `src = row.get('Source') or row.get('source')` (line 95). -/
def resolveSource (row : Row) : Val := pyOr (rowGet row "Source") (rowGet row "source")

/-- `tgt = row.get('Target') or row.get('target')` (line 96). -/
def resolveTarget (row : Row) : Val := pyOr (rowGet row "Target") (rowGet row "target")

/-- `w = row.get('Weight') or row.get('weight') or 1` (line 97). -/
def resolveWeight (row : Row) : Val :=
  pyOr (pyOr (rowGet row "Weight") (rowGet row "weight")) (Val.vint 1)

/-- One iteration of the node loop of `create_graph` (lines 90-93). -/
def addNodeRow (G : Graph) (row : Row) : Graph :=
  add_node G (resolveNodeId row) (resolveLabel row)

/-- One iteration of the edge loop of `create_graph` (lines 94-99): the edge is
inserted only when both resolved endpoints are already nodes. -/
def addEdgeRow (G : Graph) (row : Row) : Graph :=
  if hasNode G (resolveSource row) ∧ hasNode G (resolveTarget row) then
    add_edge G (resolveSource row) (resolveTarget row) (resolveWeight row)
  else G

/-- `create_graph(edges_df, nodes_df)` (lines 88-100): all node rows are
inserted first, then each edge row is inserted subject to the
endpoint-membership check. -/
def create_graph (edges_df nodes_df : List Row) : Graph :=
  edges_df.foldl addEdgeRow (nodes_df.foldl addNodeRow emptyGraph)

/-- `G.number_of_nodes()`. -/
def numberOfNodes (G : Graph) : Nat := G.nodes.length

/-- `G.number_of_edges()`: self-loops count once, parallel insertions were
merged at `add_edge` time. -/
def numberOfEdges (G : Graph) : Nat := G.edges.length

/-- `G.degree(v)` in networkx: a self-loop contributes 2, any other incident
edge contributes 1. -/
def degree (G : Graph) (v : Val) : Nat :=
  (G.edges.map (fun e =>
    if e.1 = v ∧ e.2.1 = v then 2
    else if e.1 = v ∨ e.2.1 = v then 1
    else 0)).sum

/-- `nx.density(G)` (called at line 103), transcribed from networkx: returns 0
when there are no edges or at most one node, else `2 * m / (n * (n - 1))`
for an undirected graph; arithmetic is modelled over the rationals. -/
def density (G : Graph) : ℚ :=
  if numberOfEdges G = 0 ∨ numberOfNodes G ≤ 1 then 0
  else (2 * (numberOfEdges G : ℚ)) / ((numberOfNodes G : ℚ) * ((numberOfNodes G : ℚ) - 1))

/-- `nx.degree_centrality(G)[v]` (called at line 104), transcribed from
networkx: every node of a graph with at most one node gets centrality 1,
otherwise each node gets `degree / (n - 1)`. -/
def degree_centrality (G : Graph) (v : Val) : ℚ :=
  if numberOfNodes G ≤ 1 then 1
  else (degree G v : ℚ) / ((numberOfNodes G : ℚ) - 1)

/-- The graph has no self-loop edge. -/
def noSelfLoops (G : Graph) : Prop := ∀ e ∈ G.edges, e.1 ≠ e.2.1

instance (G : Graph) : Decidable (noSelfLoops G) := by
  unfold noSelfLoops; exact inferInstance

/-- The graph is complete: no self-loops and every two distinct node
identifiers are joined by an edge. -/
def IsComplete (G : Graph) : Prop :=
  noSelfLoops G ∧
  ∀ u ∈ nodeIds G, ∀ w ∈ nodeIds G, u ≠ w → ∃ e ∈ G.edges, samePair e u w

instance (G : Graph) : Decidable (IsComplete G) := by
  unfold IsComplete; exact inferInstance

/-- Some stored edge joins the unordered pair `{u, v}`. -/
def pairMem (G : Graph) (u v : Val) : Prop := ∃ e ∈ G.edges, samePair e u v

instance (G : Graph) (u v : Val) : Decidable (pairMem G u v) := by
  unfold pairMem; exact inferInstance

/-- Edge `e` is incident to `v`. -/
def incidentTo (v : Val) (e : Edge) : Prop := e.1 = v ∨ e.2.1 = v

instance (v : Val) (e : Edge) : Decidable (incidentTo v e) := by
  unfold incidentTo; exact inferInstance

/-- The endpoint of `e` opposite to `v` (equals `v` itself on a self-loop). -/
def otherEnd (v : Val) (e : Edge) : Val := if e.1 = v then e.2.1 else e.1

/-- Two edge records join distinct unordered endpoint pairs. -/
def distinctPairs (e f : Edge) : Prop := ¬ samePair e f.1 f.2.1

/-- Well-formedness maintained by graph construction: node ids are distinct
(dict keys), edge endpoints are nodes, and stored edges join pairwise
distinct unordered pairs (adjacency-dict keys). -/
def Wf (G : Graph) : Prop :=
  (nodeIds G).Nodup ∧
  (∀ e ∈ G.edges, e.1 ∈ nodeIds G ∧ e.2.1 ∈ nodeIds G) ∧
  G.edges.Pairwise distinctPairs

/-- Numeric reading of a stored weight, used by the metric computations
(non-numeric weights are read as 1; the app's default weight is the
integer 1). -/
def valWeight : Val → ℚ
  | .vint n => (n : ℚ)
  | _ => 1

/-- The weighted neighborhood of `v`: opposite endpoint and traversal cost of
each incident edge. -/
def neighborsOf (G : Graph) (v : Val) : List (Val × ℚ) :=
  G.edges.filterMap (fun e =>
    if e.1 = v then some (e.2.1, valWeight e.2.2)
    else if e.2.1 = v then some (e.1, valWeight e.2.2) else none)

/-- All simple paths from `s` to `t` of at most `fuel` nodes, with their total
traversal cost. -/
def simplePathsAux (G : Graph) : Nat → Val → Val → List (List Val × ℚ)
  | 0, _, _ => []
  | fuel + 1, s, t =>
    if s = t then [([s], 0)]
    else (neighborsOf G s).flatMap (fun nb =>
      (simplePathsAux G fuel nb.1 t).filterMap (fun pc =>
        if s ∈ pc.1 then none else some (s :: pc.1, nb.2 + pc.2)))

/-- Modelled from the spec: `nx.betweenness_centrality(G, weight='weight')`
(line 105) is library code not in `src/`; per the spec it is "weighted
shortest-path betweenness, using edge weight as a traversal cost", and per
the spec's determinism note it is a deterministic function of the built
graph.  For each ordered pair of distinct endpoints other than `v`, the
fraction of minimum-cost simple paths passing through `v` is accumulated
and normalized. -/
def betweenness_centrality (G : Graph) (v : Val) : ℚ :=
  let ids := nodeIds G
  let n := ids.length
  let pairContrib := fun (s t : Val) =>
    if s = t ∨ v = s ∨ v = t then 0
    else
      match simplePathsAux G (n + 1) s t with
      | [] => 0
      | p :: ps =>
        let mc := ps.foldl (fun acc q => min acc q.2) p.2
        let sh := (p :: ps).filter (fun q => decide (q.2 = mc))
        let through := sh.filter (fun q => decide (v ∈ q.1))
        (through.length : ℚ) / (sh.length : ℚ)
  let total := (ids.flatMap (fun s => ids.map (fun t => pairContrib s t))).sum
  if 2 < n then total / (((n : ℚ) - 1) * ((n : ℚ) - 2)) else total / 2

/-- Modelled from the spec: `community_louvain.best_partition(G, weight='weight')`
(line 106) is library code not in `src/`; the spec fixes no particular
partition, only that it is a node-to-community-id map whose result is "not
guaranteed deterministic across runs unless a fixed seed is used" — the
call site passes no seed.  The run-to-run randomness is made explicit as a
`seed` argument on which the community labels depend. -/
def best_partition (G : Graph) (seed : Nat) : List (Val × Nat) :=
  let ids := nodeIds G
  ids.enum.map (fun p => (p.2, (p.1 + seed) % (max ids.length 1)))

/-- Weighted degree of `v` (a self-loop counts its weight twice). -/
def weightedDegree (G : Graph) (v : Val) : ℚ :=
  (G.edges.map (fun e =>
    if e.1 = v ∧ e.2.1 = v then 2 * valWeight e.2.2
    else if e.1 = v ∨ e.2.1 = v then valWeight e.2.2
    else 0)).sum

/-- Total edge weight of the graph. -/
def totalWeight (G : Graph) : ℚ := (G.edges.map (fun e => valWeight e.2.2)).sum

/-- Modelled from the spec: `community_louvain.modularity(partition, G)`
(line 107) is library code not in `src/`; per the spec and glossary it
measures "how much more densely connected communities are internally
versus a random null model" — the standard weighted modularity
`sum over communities of (w_in / m - (w_tot / (2 m))^2)`. -/
def modularity (partition : List (Val × Nat)) (G : Graph) : ℚ :=
  let m := totalWeight G
  if m = 0 then 0
  else
    let comOf := fun v => (((partition.find? (fun p => p.1 == v)).map Prod.snd).getD 0)
    let coms := (partition.map Prod.snd).dedup
    (coms.map (fun c =>
      let inside := ((G.edges.filter (fun e =>
        decide (comOf e.1 = c) && decide (comOf e.2.1 = c))).map (fun e => valWeight e.2.2)).sum
      let degTot := (((nodeIds G).filter (fun v => decide (comOf v = c))).map
        (fun v => weightedDegree G v)).sum
      inside / m - (degTot / (2 * m)) ^ 2)).sum

/-- The tuple returned by `calculate_metrics` (line 112). -/
structure Metrics where
  graph : Graph
  density_val : ℚ
  modularity_score : ℚ
  degree_dict : List (Val × ℚ)
  betweenness_dict : List (Val × ℚ)
  partition : List (Val × Nat)
deriving DecidableEq

/-- `calculate_metrics(G)` (lines 102-112).  The only randomized library call
in the body is `best_partition` (no seed is passed at line 106), so the
run's hidden random state, made explicit here as `seed`, enters only the
partition and the modularity score computed from it. -/
def calculate_metrics (G : Graph) (seed : Nat) : Metrics :=
  let density_val := density G
  let degree_dict := (nodeIds G).map (fun v => (v, degree_centrality G v))
  let betweenness_dict := (nodeIds G).map (fun v => (v, betweenness_centrality G v))
  let partition := best_partition G seed
  let modularity_score := modularity partition G
  ⟨G, density_val, modularity_score, degree_dict, betweenness_dict, partition⟩

/-- One full build-and-metrics run of `main` (lines 175-176) on already loaded
tables, under a given hidden random state. -/
def pipeline (edges_df nodes_df : List Row) (seed : Nat) : Metrics :=
  calculate_metrics (create_graph edges_df nodes_df) seed

/-- `load_data(edges_url, nodes_url)` (lines 78-86): the fetch/parse outcomes
of the two URLs are the inputs; any failure of either read makes the
single `try` block fall to the handler, which returns `(None, None)`. -/
def load_data (edgesFetch nodesFetch : Except String (List Row)) :
    Option (List Row) × Option (List Row) :=
  match edgesFetch, nodesFetch with
  | .ok e, .ok n => (some e, some n)
  | _, _ => (none, none)

/-- The guard of `main` (line 174): metrics and graph are rendered only when
both tables are present. -/
def renderGate (p : Option (List Row) × Option (List Row)) : Bool :=
  p.1.isSome && p.2.isSome

/-- Whether a fetch/parse outcome succeeded. -/
def fetchOk : Except String (List Row) → Bool
  | .ok _ => true
  | .error _ => false

/-! ### Structural lemmas about graph construction -/

theorem nodeIds_add_node (G : Graph) (i l : Val) :
    nodeIds (add_node G i l) = if hasNode G i then nodeIds G else nodeIds G ++ [i] := by
  by_cases h : hasNode G i
  · rw [add_node, if_pos h, if_pos h]
    show (G.nodes.map _).map Prod.fst = G.nodes.map Prod.fst
    rw [List.map_map]
    apply List.map_congr_left
    intro p _
    by_cases hp : p.1 = i
    · simp [Function.comp, hp]
    · simp [Function.comp, hp]
  · rw [add_node, if_neg h, if_neg h]
    show (G.nodes ++ [(i, l)]).map Prod.fst = G.nodes.map Prod.fst ++ [i]
    simp

theorem edges_add_node (G : Graph) (i l : Val) : (add_node G i l).edges = G.edges := by
  unfold add_node; split <;> rfl

theorem self_mem_nodeIds_add_node (G : Graph) (i l : Val) : i ∈ nodeIds (add_node G i l) := by
  rw [nodeIds_add_node]
  by_cases h : hasNode G i
  · rw [if_pos h]; exact h
  · rw [if_neg h]; simp

theorem mem_nodeIds_add_node_of_mem (G : Graph) (i l x : Val) (h : x ∈ nodeIds G) :
    x ∈ nodeIds (add_node G i l) := by
  rw [nodeIds_add_node]; split
  · exact h
  · exact List.mem_append_left _ h

theorem nodup_nodeIds_add_node (G : Graph) (i l : Val) (h : (nodeIds G).Nodup) :
    (nodeIds (add_node G i l)).Nodup := by
  rw [nodeIds_add_node]; split
  · exact h
  · next hni =>
    refine List.Nodup.append h (List.nodup_singleton i) ?_
    intro a ha hai
    rw [List.mem_singleton] at hai
    subst hai
    exact hni ha

theorem nodes_add_edge (G : Graph) (u v w : Val) : (add_edge G u v w).nodes = G.nodes := by
  unfold add_edge; split <;> rfl

theorem nodeIds_add_edge (G : Graph) (u v w : Val) : nodeIds (add_edge G u v w) = nodeIds G := by
  unfold nodeIds; rw [nodes_add_edge]

theorem pairMem_add_edge_self (G : Graph) (u v w : Val) : pairMem (add_edge G u v w) u v := by
  unfold pairMem add_edge
  split
  · next h =>
    obtain ⟨e, he, hs⟩ := h
    refine ⟨(e.1, e.2.1, w), ?_, hs⟩
    have hfe : (fun e => if samePair e u v then (e.1, e.2.1, w) else e) e = (e.1, e.2.1, w) :=
      if_pos hs
    exact hfe ▸ List.mem_map_of_mem _ he
  · exact ⟨(u, v, w), List.mem_append_right _ (List.mem_singleton_self _), Or.inl ⟨rfl, rfl⟩⟩

theorem pairMem_add_edge_of (G : Graph) (u v w a b : Val) (h : pairMem G a b) :
    pairMem (add_edge G u v w) a b := by
  obtain ⟨e, he, hs⟩ := h
  unfold pairMem add_edge
  split
  · by_cases hp : samePair e u v
    · refine ⟨(e.1, e.2.1, w), ?_, hs⟩
      have hfe : (fun e => if samePair e u v then (e.1, e.2.1, w) else e) e = (e.1, e.2.1, w) :=
        if_pos hp
      exact hfe ▸ List.mem_map_of_mem _ he
    · refine ⟨e, ?_, hs⟩
      have hfe : (fun e => if samePair e u v then (e.1, e.2.1, w) else e) e = e := if_neg hp
      exact hfe ▸ List.mem_map_of_mem _ he
  · exact ⟨e, List.mem_append_left _ he, hs⟩

theorem nodes_addEdgeRow (G : Graph) (r : Row) : (addEdgeRow G r).nodes = G.nodes := by
  unfold addEdgeRow; split
  · exact nodes_add_edge _ _ _ _
  · rfl

theorem pairMem_addEdgeRow_of (G : Graph) (r : Row) (a b : Val) (h : pairMem G a b) :
    pairMem (addEdgeRow G r) a b := by
  unfold addEdgeRow; split
  · exact pairMem_add_edge_of _ _ _ _ _ _ h
  · exact h

theorem nodes_foldl_addEdgeRow (l : List Row) (G : Graph) :
    (l.foldl addEdgeRow G).nodes = G.nodes := by
  induction l generalizing G with
  | nil => rfl
  | cons r l ih => rw [List.foldl_cons, ih, nodes_addEdgeRow]

theorem hasNode_addEdgeRow_iff (G : Graph) (r : Row) (x : Val) :
    hasNode (addEdgeRow G r) x ↔ hasNode G x := by
  unfold hasNode nodeIds
  rw [nodes_addEdgeRow]

theorem pairMem_foldl_addEdgeRow_of (l : List Row) (G : Graph) (a b : Val) (h : pairMem G a b) :
    pairMem (l.foldl addEdgeRow G) a b := by
  induction l generalizing G with
  | nil => exact h
  | cons r l ih => exact ih _ (pairMem_addEdgeRow_of _ _ _ _ h)

theorem pairMem_foldl_addEdgeRow (l : List Row) (G : Graph) (r : Row) (hr : r ∈ l)
    (hs : hasNode G (resolveSource r)) (ht : hasNode G (resolveTarget r)) :
    pairMem (l.foldl addEdgeRow G) (resolveSource r) (resolveTarget r) := by
  induction l generalizing G with
  | nil => cases hr
  | cons q l ih =>
    rw [List.foldl_cons]
    rcases List.mem_cons.mp hr with h | h
    · subst h
      apply pairMem_foldl_addEdgeRow_of
      unfold addEdgeRow
      rw [if_pos ⟨hs, ht⟩]
      exact pairMem_add_edge_self _ _ _ _
    · exact ih _ h ((hasNode_addEdgeRow_iff _ _ _).mpr hs) ((hasNode_addEdgeRow_iff _ _ _).mpr ht)

theorem mem_nodeIds_foldl_addNodeRow_of (l : List Row) (G : Graph) (x : Val)
    (h : x ∈ nodeIds G) : x ∈ nodeIds (l.foldl addNodeRow G) := by
  induction l generalizing G with
  | nil => exact h
  | cons r l ih =>
    rw [List.foldl_cons]
    exact ih _ (mem_nodeIds_add_node_of_mem _ _ _ _ h)

theorem resolveNodeId_mem_foldl (l : List Row) (G : Graph) (r : Row) (hr : r ∈ l) :
    resolveNodeId r ∈ nodeIds (l.foldl addNodeRow G) := by
  induction l generalizing G with
  | nil => cases hr
  | cons q l ih =>
    rw [List.foldl_cons]
    rcases List.mem_cons.mp hr with h | h
    · subst h
      exact mem_nodeIds_foldl_addNodeRow_of _ _ _ (self_mem_nodeIds_add_node _ _ _)
    · exact ih _ h

theorem edges_foldl_addNodeRow (l : List Row) (G : Graph) :
    (l.foldl addNodeRow G).edges = G.edges := by
  induction l generalizing G with
  | nil => rfl
  | cons r l ih => rw [List.foldl_cons, ih, addNodeRow, edges_add_node]

/-! ### Preservation of the well-formedness invariant -/

theorem wf_emptyGraph : Wf emptyGraph := by
  refine ⟨List.nodup_nil, ?_, List.Pairwise.nil⟩
  intro e he
  cases he

theorem wf_add_node (G : Graph) (i l : Val) (h : Wf G) : Wf (add_node G i l) := by
  obtain ⟨h1, h2, h3⟩ := h
  refine ⟨nodup_nodeIds_add_node _ _ _ h1, ?_, ?_⟩
  · intro e he
    rw [edges_add_node] at he
    obtain ⟨he1, he2⟩ := h2 e he
    exact ⟨mem_nodeIds_add_node_of_mem _ _ _ _ he1, mem_nodeIds_add_node_of_mem _ _ _ _ he2⟩
  · rw [edges_add_node]
    exact h3

theorem wf_add_edge (G : Graph) (u v w : Val) (h : Wf G)
    (hu : u ∈ nodeIds G) (hv : v ∈ nodeIds G) : Wf (add_edge G u v w) := by
  obtain ⟨h1, h2, h3⟩ := h
  refine ⟨?_, ?_, ?_⟩
  · rw [nodeIds_add_edge]; exact h1
  · intro e he
    rw [nodeIds_add_edge]
    unfold add_edge at he
    split at he
    · obtain ⟨f, hf, hfe⟩ := List.mem_map.mp he
      obtain ⟨hf1, hf2⟩ := h2 f hf
      by_cases hp : samePair f u v
      · rw [if_pos hp] at hfe
        subst hfe
        exact ⟨hf1, hf2⟩
      · rw [if_neg hp] at hfe
        subst hfe
        exact ⟨hf1, hf2⟩
    · rcases List.mem_append.mp he with hm | hm
      · exact h2 e hm
      · rw [List.mem_singleton] at hm
        subst hm
        exact ⟨hu, hv⟩
  · unfold add_edge
    split
    · next hex =>
      refine List.Pairwise.map _ ?_ h3
      intro a b hab
      by_cases ha : samePair a u v <;> by_cases hb : samePair b u v <;>
        simp only [if_pos, if_neg, ha, hb, if_true, if_false] <;> exact hab
    · next hex =>
      rw [List.pairwise_append]
      refine ⟨h3, List.pairwise_singleton _ _, ?_⟩
      intro a ha b hb
      rw [List.mem_singleton] at hb
      subst hb
      intro hs
      exact hex ⟨a, ha, hs⟩

theorem wf_addNodeRow (G : Graph) (r : Row) (h : Wf G) : Wf (addNodeRow G r) :=
  wf_add_node _ _ _ h

theorem wf_addEdgeRow (G : Graph) (r : Row) (h : Wf G) : Wf (addEdgeRow G r) := by
  unfold addEdgeRow
  split
  · next hc => exact wf_add_edge _ _ _ _ h hc.1 hc.2
  · exact h

theorem wf_foldl_addNodeRow (l : List Row) (G : Graph) (h : Wf G) :
    Wf (l.foldl addNodeRow G) := by
  induction l generalizing G with
  | nil => exact h
  | cons r l ih => exact ih _ (wf_addNodeRow _ _ h)

theorem wf_foldl_addEdgeRow (l : List Row) (G : Graph) (h : Wf G) :
    Wf (l.foldl addEdgeRow G) := by
  induction l generalizing G with
  | nil => exact h
  | cons r l ih => exact ih _ (wf_addEdgeRow _ _ h)

theorem wf_create_graph (eds nds : List Row) : Wf (create_graph eds nds) :=
  wf_foldl_addEdgeRow _ _ (wf_foldl_addNodeRow _ _ wf_emptyGraph)

/-! ### Degree bounds for simple graphs -/

/-- The edges incident to `v`. -/
def incidentEdges (G : Graph) (v : Val) : List Edge :=
  G.edges.filter (fun e => decide (incidentTo v e))

/-- The opposite endpoints of the edges incident to `v`. -/
def neighborIds (G : Graph) (v : Val) : List Val :=
  (incidentEdges G v).map (otherEnd v)

theorem degree_eq_length_incidentEdges (G : Graph) (v : Val) (h : noSelfLoops G) :
    degree G v = (incidentEdges G v).length := by
  unfold degree incidentEdges
  have key : ∀ (l : List Edge), (∀ e ∈ l, e.1 ≠ e.2.1) →
      (l.map (fun e =>
        if e.1 = v ∧ e.2.1 = v then 2
        else if e.1 = v ∨ e.2.1 = v then 1
        else 0)).sum = (l.filter (fun e => decide (incidentTo v e))).length := by
    intro l hl
    induction l with
    | nil => rfl
    | cons e l ih =>
      have hne := hl e (List.mem_cons_self _ _)
      have hl2 := fun f hf => hl f (List.mem_cons_of_mem _ hf)
      have hih := ih hl2
      have hnot : ¬ (e.1 = v ∧ e.2.1 = v) := fun hand => hne (hand.1.trans hand.2.symm)
      by_cases hi : incidentTo v e
      · have hi2 : e.1 = v ∨ e.2.1 = v := hi
        have hf : (e :: l).filter (fun e => decide (incidentTo v e))
            = e :: l.filter (fun e => decide (incidentTo v e)) := by
          simp [List.filter_cons, hi]
        rw [List.map_cons, List.sum_cons, if_neg hnot, if_pos hi2, hf, List.length_cons, hih]
        omega
      · have hi2 : ¬ (e.1 = v ∨ e.2.1 = v) := hi
        have hf : (e :: l).filter (fun e => decide (incidentTo v e))
            = l.filter (fun e => decide (incidentTo v e)) := by
          simp [List.filter_cons, hi]
        rw [List.map_cons, List.sum_cons, if_neg hnot, if_neg hi2, hf, hih]
        omega
  exact key G.edges h

theorem pair_of_incident (e : Edge) (v : Val) (hi : incidentTo v e) :
    samePair e v (otherEnd v e) := by
  unfold otherEnd
  by_cases h1 : e.1 = v
  · rw [if_pos h1]
    exact Or.inl ⟨h1, rfl⟩
  · rw [if_neg h1]
    rcases hi with h | h
    · exact absurd h h1
    · exact Or.inr ⟨rfl, h⟩

theorem otherEnd_ne (e : Edge) (v : Val) (hne : e.1 ≠ e.2.1) :
    otherEnd v e ≠ v := by
  unfold otherEnd
  by_cases h1 : e.1 = v
  · rw [if_pos h1]
    exact fun hh => hne (by rw [h1, hh])
  · rw [if_neg h1]
    exact h1

theorem otherEnd_mem (G : Graph) (e : Edge) (v : Val)
    (h2 : ∀ e ∈ G.edges, e.1 ∈ nodeIds G ∧ e.2.1 ∈ nodeIds G) (he : e ∈ G.edges) :
    otherEnd v e ∈ nodeIds G := by
  unfold otherEnd
  split
  · exact (h2 e he).2
  · exact (h2 e he).1

theorem samePair_of_samePair (a b : Edge) (v x : Val)
    (ha : samePair a v x) (hb : samePair b v x) : samePair a b.1 b.2.1 := by
  rcases ha with ⟨ha1, ha2⟩ | ⟨ha1, ha2⟩ <;> rcases hb with ⟨hb1, hb2⟩ | ⟨hb1, hb2⟩
  · exact Or.inl ⟨ha1.trans hb1.symm, ha2.trans hb2.symm⟩
  · exact Or.inr ⟨ha1.trans hb2.symm, ha2.trans hb1.symm⟩
  · exact Or.inr ⟨ha1.trans hb2.symm, ha2.trans hb1.symm⟩
  · exact Or.inl ⟨ha1.trans hb1.symm, ha2.trans hb2.symm⟩

theorem nodup_neighborIds (G : Graph) (v : Val) (h : Wf G) :
    (neighborIds G v).Nodup := by
  obtain ⟨h1, h2, h3⟩ := h
  unfold neighborIds
  have hp : (incidentEdges G v).Pairwise distinctPairs :=
    List.Pairwise.sublist (List.filter_sublist _) h3
  have hp2 : (incidentEdges G v).Pairwise (fun a b => otherEnd v a ≠ otherEnd v b) := by
    refine List.Pairwise.imp_of_mem ?_ hp
    intro a b ha hb hab heq
    unfold incidentEdges at ha hb
    have hai : incidentTo v a := by simpa using List.of_mem_filter ha
    have hbi : incidentTo v b := by simpa using List.of_mem_filter hb
    have ham : a ∈ G.edges := List.mem_of_mem_filter ha
    have hbm : b ∈ G.edges := List.mem_of_mem_filter hb
    have hpa : samePair a v (otherEnd v a) := pair_of_incident a v hai
    have hpb : samePair b v (otherEnd v b) := pair_of_incident b v hbi
    rw [heq] at hpa
    exact hab (samePair_of_samePair a b v (otherEnd v b) hpa hpb)
  exact List.Pairwise.map _ (fun a b hh => hh) hp2

theorem neighborIds_facts (G : Graph) (v : Val) (h : Wf G) (hs : noSelfLoops G) :
    ∀ x ∈ neighborIds G v, x ∈ nodeIds G ∧ x ≠ v := by
  intro x hx
  obtain ⟨e, he, hee⟩ := List.mem_map.mp hx
  unfold incidentEdges at he
  have hei : incidentTo v e := by simpa using List.of_mem_filter he
  have hem : e ∈ G.edges := List.mem_of_mem_filter he
  rw [← hee]
  exact ⟨otherEnd_mem G e v h.2.1 hem, otherEnd_ne e v (hs e hem)⟩

theorem length_nodeIds (G : Graph) : (nodeIds G).length = numberOfNodes G :=
  List.length_map _ _

theorem degree_le_of_noSelfLoops (G : Graph) (v : Val) (h : Wf G) (hs : noSelfLoops G)
    (hv : v ∈ nodeIds G) : degree G v ≤ numberOfNodes G - 1 := by
  have hnd := nodup_neighborIds G v h
  have hfacts := neighborIds_facts G v h hs
  have hcard : (neighborIds G v).toFinset.card = (neighborIds G v).length :=
    List.toFinset_card_of_nodup hnd
  have hsubF : (neighborIds G v).toFinset ⊆ ((nodeIds G).toFinset).erase v := by
    intro x hx
    rw [List.mem_toFinset] at hx
    obtain ⟨hx1, hx2⟩ := hfacts x hx
    exact Finset.mem_erase.mpr ⟨hx2, List.mem_toFinset.mpr hx1⟩
  have hle := Finset.card_le_card hsubF
  rw [Finset.card_erase_of_mem (List.mem_toFinset.mpr hv)] at hle
  have hN : (nodeIds G).toFinset.card = (nodeIds G).length :=
    List.toFinset_card_of_nodup h.1
  rw [hN, length_nodeIds] at hle
  have hdeg : degree G v = (neighborIds G v).length := by
    rw [degree_eq_length_incidentEdges G v hs]
    exact (List.length_map _ _).symm
  omega

theorem weight_add_edge (G : Graph) (u v w x : Val)
    (hx : x ∈ (add_edge G u v w).edges.map (fun e => e.2.2)) :
    x ∈ G.edges.map (fun e => e.2.2) ∨ x = w := by
  unfold add_edge at hx
  split at hx
  · obtain ⟨f, hf, hfx⟩ := List.mem_map.mp hx
    obtain ⟨g, hg, hgf⟩ := List.mem_map.mp hf
    by_cases hp : samePair g u v
    · rw [if_pos hp] at hgf
      subst hgf
      exact Or.inr hfx.symm
    · rw [if_neg hp] at hgf
      subst hgf
      exact Or.inl (List.mem_map.mpr ⟨g, hg, hfx⟩)
  · obtain ⟨f, hf, hfx⟩ := List.mem_map.mp hx
    rcases List.mem_append.mp hf with hm | hm
    · exact Or.inl (List.mem_map.mpr ⟨f, hm, hfx⟩)
    · rw [List.mem_singleton] at hm
      subst hm
      exact Or.inr hfx.symm

theorem weight_addEdgeRow (G : Graph) (r : Row) (x : Val)
    (hx : x ∈ (addEdgeRow G r).edges.map (fun e => e.2.2)) :
    x ∈ G.edges.map (fun e => e.2.2) ∨ x = resolveWeight r := by
  unfold addEdgeRow at hx
  split at hx
  · exact weight_add_edge _ _ _ _ _ hx
  · exact Or.inl hx

theorem weight_foldl_addEdgeRow (l : List Row) (G : Graph) (x : Val)
    (hx : x ∈ (l.foldl addEdgeRow G).edges.map (fun e => e.2.2)) :
    x ∈ G.edges.map (fun e => e.2.2) ∨ ∃ r ∈ l, x = resolveWeight r := by
  induction l generalizing G with
  | nil => exact Or.inl hx
  | cons r l ih =>
    rw [List.foldl_cons] at hx
    rcases ih _ hx with h | h
    · rcases weight_addEdgeRow _ _ _ h with h2 | h2
      · exact Or.inl h2
      · exact Or.inr ⟨r, List.mem_cons_self _ _, h2⟩
    · obtain ⟨q, hq, hqx⟩ := h
      exact Or.inr ⟨q, List.mem_cons_of_mem _ hq, hqx⟩

theorem degree_of_complete (G : Graph) (v : Val) (h : Wf G) (hc : IsComplete G)
    (hv : v ∈ nodeIds G) : degree G v = numberOfNodes G - 1 := by
  obtain ⟨hs, hadj⟩ := hc
  have hnd := nodup_neighborIds G v h
  have hfacts := neighborIds_facts G v h hs
  have hcard : (neighborIds G v).toFinset.card = (neighborIds G v).length :=
    List.toFinset_card_of_nodup hnd
  have hsubF : (neighborIds G v).toFinset ⊆ ((nodeIds G).toFinset).erase v := by
    intro x hx
    rw [List.mem_toFinset] at hx
    obtain ⟨hx1, hx2⟩ := hfacts x hx
    exact Finset.mem_erase.mpr ⟨hx2, List.mem_toFinset.mpr hx1⟩
  have hsupF : ((nodeIds G).toFinset).erase v ⊆ (neighborIds G v).toFinset := by
    intro x hx
    obtain ⟨hxv, hxm⟩ := Finset.mem_erase.mp hx
    rw [List.mem_toFinset] at hxm ⊢
    obtain ⟨e, he, hp⟩ := hadj v hv x hxm (Ne.symm hxv)
    have hi : incidentTo v e := by
      rcases hp with ⟨h1, _⟩ | ⟨_, h2⟩
      · exact Or.inl h1
      · exact Or.inr h2
    have hoe : otherEnd v e = x := by
      rcases hp with ⟨h1, h2⟩ | ⟨h1, h2⟩
      · unfold otherEnd
        rw [if_pos h1]
        exact h2
      · unfold otherEnd
        rw [if_neg (fun hh => hxv (h1 ▸ hh))]
        exact h1
    rw [← hoe]
    exact List.mem_map_of_mem _ (List.mem_filter.mpr ⟨he, decide_eq_true hi⟩)
  have heq : (neighborIds G v).toFinset = ((nodeIds G).toFinset).erase v :=
    Finset.Subset.antisymm hsubF hsupF
  have hN : (nodeIds G).toFinset.card = (nodeIds G).length :=
    List.toFinset_card_of_nodup h.1
  have hdeg : degree G v = (neighborIds G v).length := by
    rw [degree_eq_length_incidentEdges G v hs]
    exact (List.length_map _ _).symm
  have := Finset.card_erase_of_mem (List.mem_toFinset.mpr hv)
  rw [heq] at hcard
  rw [hN, length_nodeIds] at this
  omega

/-! ### Metric formulas -/

theorem density_formula (G : Graph) :
    (1 < numberOfNodes G →
      density G = 2 * (numberOfEdges G : ℚ) /
        ((numberOfNodes G : ℚ) * ((numberOfNodes G : ℚ) - 1))) ∧
    (numberOfNodes G ≤ 1 → density G = 0) := by
  constructor
  · intro hn
    unfold density
    by_cases hm : numberOfEdges G = 0
    · rw [if_pos (Or.inl hm), hm]
      norm_num
    · rw [if_neg (fun hor => hor.elim hm (by omega))]
  · intro hn
    unfold density
    rw [if_pos (Or.inr hn)]

theorem dc_bounds (G : Graph) (v : Val) (hwf : Wf G) (hv : v ∈ nodeIds G) :
    (noSelfLoops G → 0 ≤ degree_centrality G v ∧ degree_centrality G v ≤ 1) ∧
    (IsComplete G → degree_centrality G v = 1) := by
  constructor
  · intro hs
    constructor
    · unfold degree_centrality
      split
      · exact zero_le_one
      · next hn =>
        apply div_nonneg (Nat.cast_nonneg _)
        have h2 : 2 ≤ numberOfNodes G := by omega
        have hc2 : (2 : ℚ) ≤ (numberOfNodes G : ℚ) := by exact_mod_cast h2
        linarith
    · unfold degree_centrality
      split
      · exact le_refl 1
      · next hn =>
        have h2 : 2 ≤ numberOfNodes G := by omega
        have hc2 : (2 : ℚ) ≤ (numberOfNodes G : ℚ) := by exact_mod_cast h2
        have hpos : (0 : ℚ) < (numberOfNodes G : ℚ) - 1 := by linarith
        rw [div_le_one hpos]
        have hdle := degree_le_of_noSelfLoops G v hwf hs hv
        have hcle : ((degree G v : ℚ)) ≤ ((numberOfNodes G - 1 : Nat) : ℚ) :=
          Nat.cast_le.mpr hdle
        rw [Nat.cast_sub (by omega)] at hcle
        simpa using hcle
  · intro hc
    unfold degree_centrality
    split
    · rfl
    · next hn =>
      have h2 : 2 ≤ numberOfNodes G := by omega
      have hc2 : (2 : ℚ) ≤ (numberOfNodes G : ℚ) := by exact_mod_cast h2
      rw [degree_of_complete G v hwf hc hv, Nat.cast_sub (by omega)]
      exact div_self (by intro h0; simp at h0; linarith)

/-! ### Concrete tables used to instantiate the claims -/

/-- The 4-node square graph of spec section 8: nodes A, B, C, D. -/
def sqNodes : List Row :=
  [[("Id", Val.vstr "A")], [("Id", Val.vstr "B")], [("Id", Val.vstr "C")], [("Id", Val.vstr "D")]]

/-- The 4-node square graph of spec section 8: edges A-B, B-C, C-D, D-A. -/
def sqEdges : List Row :=
  [[("Source", Val.vstr "A"), ("Target", Val.vstr "B")],
   [("Source", Val.vstr "B"), ("Target", Val.vstr "C")],
   [("Source", Val.vstr "C"), ("Target", Val.vstr "D")],
   [("Source", Val.vstr "D"), ("Target", Val.vstr "A")]]

/-- Two nodes A, B. -/
def pairNodes : List Row := [[("Id", Val.vstr "A")], [("Id", Val.vstr "B")]]

/-- One valid edge A-B and one edge whose source Z is not in the node table. -/
def danglingEdges : List Row :=
  [[("Source", Val.vstr "A"), ("Target", Val.vstr "B")],
   [("Source", Val.vstr "Z"), ("Target", Val.vstr "A")]]

/-- A self-loop row A-A and an ordinary row A-B. -/
def loopEdges : List Row :=
  [[("Source", Val.vstr "A"), ("Target", Val.vstr "A"), ("Weight", Val.vint 2)],
   [("Source", Val.vstr "A"), ("Target", Val.vstr "B")]]

/-- A single edge row with an explicit weight of 5. -/
def weightEdges : List Row :=
  [[("Source", Val.vstr "A"), ("Target", Val.vstr "B"), ("Weight", Val.vint 5)]]

/-- A single node row A. -/
def oneNode : List Row := [[("Id", Val.vstr "A")]]

/-- Triangle node table A, B, C. -/
def triNodes : List Row :=
  [[("Id", Val.vstr "A")], [("Id", Val.vstr "B")], [("Id", Val.vstr "C")]]

/-- Triangle edge table A-B, B-C, C-A (a complete graph on three nodes). -/
def triEdges : List Row :=
  [[("Source", Val.vstr "A"), ("Target", Val.vstr "B")],
   [("Source", Val.vstr "B"), ("Target", Val.vstr "C")],
   [("Source", Val.vstr "C"), ("Target", Val.vstr "A")]]

/-- A node row whose only identifier column is lowercase `id` holding 0. -/
def lowerZeroNodes : List Row := [[("id", Val.vint 0)]]

/-- Two node rows whose `Id` values are falsy (0 and the empty string) with no
lowercase `id` column. -/
def upperZeroNodes : List Row := [[("Id", Val.vint 0)], [("Id", Val.vstr "")]]

/-- Node rows with mixed-case and missing columns, including an entirely empty
row. -/
def messyNodes : List Row :=
  [[("id", Val.vstr "A")], [("Id", Val.vstr "B"), ("Label", Val.vstr "Bee")], []]

/-- Edge rows with mixed-case and missing columns. -/
def messyEdges : List Row :=
  [[("source", Val.vstr "A"), ("Target", Val.vstr "B")], [("Source", Val.vstr "A")]]

/-! ### The claims -/

/-- Claim C1: every edge of the built graph touches only identifiers read from
the node table — an edge row with an unknown endpoint is dropped, and the
node set of the built graph is exactly the node set produced by the node
loop, independent of the edge table (no partial-node creation). -/
theorem claim1_dangling_edges_dropped (eds nds : List Row) :
    (∀ e ∈ (create_graph eds nds).edges,
      e.1 ∈ nodeIds (create_graph eds nds) ∧ e.2.1 ∈ nodeIds (create_graph eds nds)) ∧
    nodeIds (create_graph eds nds) = nodeIds (nds.foldl addNodeRow emptyGraph) := by
  constructor
  · exact (wf_create_graph eds nds).2.1
  · unfold create_graph nodeIds
    rw [nodes_foldl_addEdgeRow]

/-- Witness for C1: on a concrete node table {A, B} with one valid edge A-B and
one dangling edge Z-A, the stored edge's endpoints are known node ids, Z is
not a node, and no edge touches Z. -/
theorem claim1_dangling_edges_dropped_witness :
    (Val.vstr "A" ∈ nodeIds (create_graph danglingEdges pairNodes) ∧
      Val.vstr "B" ∈ nodeIds (create_graph danglingEdges pairNodes)) ∧
    ¬ hasNode (create_graph danglingEdges pairNodes) (Val.vstr "Z") ∧
    ¬ pairMem (create_graph danglingEdges pairNodes) (Val.vstr "Z") (Val.vstr "A") :=
  ⟨(claim1_dangling_edges_dropped danglingEdges pairNodes).1
      (Val.vstr "A", Val.vstr "B", Val.vint 1) (by decide),
    by decide, by decide⟩

/-- Claim C2: for a built graph with no self-loops (duplicate pairs are merged
by construction), the density reported by the metrics stage is
`2 M / (N (N - 1))` when `N > 1`, and 0 when the graph has at most one
node. -/
theorem claim2_density_formula (eds nds : List Row) :
    (noSelfLoops (create_graph eds nds) → 1 < numberOfNodes (create_graph eds nds) →
      density (create_graph eds nds) = 2 * (numberOfEdges (create_graph eds nds) : ℚ) /
        ((numberOfNodes (create_graph eds nds) : ℚ) *
          ((numberOfNodes (create_graph eds nds) : ℚ) - 1))) ∧
    (numberOfNodes (create_graph eds nds) ≤ 1 → density (create_graph eds nds) = 0) ∧
    (∀ seed : Nat, (calculate_metrics (create_graph eds nds) seed).density_val
      = density (create_graph eds nds)) :=
  ⟨fun _ hn => (density_formula (create_graph eds nds)).1 hn,
    (density_formula (create_graph eds nds)).2,
    fun _ => rfl⟩

/-- Witness for C2: the 4-node square graph of spec section 8 has no
self-loops, more than one node, and density `2 * 4 / (4 * 3)`. -/
theorem claim2_density_formula_witness :
    noSelfLoops (create_graph sqEdges sqNodes) ∧
    1 < numberOfNodes (create_graph sqEdges sqNodes) ∧
    density (create_graph sqEdges sqNodes)
      = 2 * (numberOfEdges (create_graph sqEdges sqNodes) : ℚ) /
        ((numberOfNodes (create_graph sqEdges sqNodes) : ℚ) *
          ((numberOfNodes (create_graph sqEdges sqNodes) : ℚ) - 1)) :=
  ⟨by decide, by decide,
    (claim2_density_formula sqEdges sqNodes).1 (by decide) (by decide)⟩

/-- Claim C3: every weight stored in the built graph is the resolved weight of
some edge row, and the resolution reads the `Weight`/`weight` field,
defaulting to 1 exactly when the value found is missing or falsy. -/
theorem claim3_weight_default (eds nds : List Row) :
    (∀ e ∈ (create_graph eds nds).edges, ∃ r ∈ eds, e.2.2 = resolveWeight r) ∧
    (∀ r : Row,
      ((rowGet r "Weight").truthy = true → resolveWeight r = rowGet r "Weight") ∧
      ((rowGet r "Weight").truthy = false → (rowGet r "weight").truthy = true →
        resolveWeight r = rowGet r "weight") ∧
      ((rowGet r "Weight").truthy = false → (rowGet r "weight").truthy = false →
        resolveWeight r = Val.vint 1)) := by
  constructor
  · intro e he
    have hx : e.2.2 ∈ (create_graph eds nds).edges.map (fun e => e.2.2) :=
      List.mem_map_of_mem _ he
    unfold create_graph at hx
    rcases weight_foldl_addEdgeRow eds _ _ hx with h | h
    · rw [edges_foldl_addNodeRow] at h
      simp [emptyGraph] at h
    · exact h
  · intro r
    refine ⟨fun hW => ?_, fun hW hw => ?_, fun hW hw => ?_⟩
    · simp [resolveWeight, pyOr, hW]
    · simp [resolveWeight, pyOr, hW, hw]
    · simp [resolveWeight, pyOr, hW, hw]

/-- Witness for C3: the weight 5 stored for edge A-B comes from the row with
`Weight` 5, and a row with no weight column resolves to weight 1. -/
theorem claim3_weight_default_witness :
    (∃ r ∈ weightEdges, Val.vint 5 = resolveWeight r) ∧
    resolveWeight [("Source", Val.vstr "A"), ("Target", Val.vstr "B")] = Val.vint 1 :=
  ⟨(claim3_weight_default weightEdges pairNodes).1
      (Val.vstr "A", Val.vstr "B", Val.vint 5) (by decide),
    ((claim3_weight_default weightEdges pairNodes).2
      [("Source", Val.vstr "A"), ("Target", Val.vstr "B")]).2.2 (by decide) (by decide)⟩

/-- Counterexample to C4 as stated: networkx gives every node of a single-node
graph degree centrality 1, not 0. -/
theorem claim4_single_node_counterexample :
    numberOfNodes (create_graph [] oneNode) = 1 ∧
    degree_centrality (create_graph [] oneNode) (Val.vstr "A") = 1 ∧
    degree_centrality (create_graph [] oneNode) (Val.vstr "A") ≠ 0 := by
  refine ⟨by decide, ?_, ?_⟩
  · unfold degree_centrality
    rw [if_pos (show numberOfNodes (create_graph [] oneNode) ≤ 1 by decide)]
  · unfold degree_centrality
    rw [if_pos (show numberOfNodes (create_graph [] oneNode) ≤ 1 by decide)]
    norm_num

/-- Claim C4 as amended: with more than one node, each node's degree centrality
is its degree divided by (node count − 1); for a single-node graph the
degree centrality is 1 (networkx's convention), not 0. -/
theorem claim4_degree_centrality (eds nds : List Row) (v : Val) :
    (1 < numberOfNodes (create_graph eds nds) →
      degree_centrality (create_graph eds nds) v
        = (degree (create_graph eds nds) v : ℚ) /
          ((numberOfNodes (create_graph eds nds) : ℚ) - 1)) ∧
    (numberOfNodes (create_graph eds nds) = 1 →
      degree_centrality (create_graph eds nds) v = 1) := by
  constructor
  · intro hn
    unfold degree_centrality
    rw [if_neg (by omega)]
  · intro h1
    unfold degree_centrality
    rw [if_pos (by omega)]

/-- Witness for C4: on the 4-node square graph, node A's degree centrality is
`degree / (4 - 1)`. -/
theorem claim4_degree_centrality_witness :
    1 < numberOfNodes (create_graph sqEdges sqNodes) ∧
    degree_centrality (create_graph sqEdges sqNodes) (Val.vstr "A")
      = (degree (create_graph sqEdges sqNodes) (Val.vstr "A") : ℚ) /
        ((numberOfNodes (create_graph sqEdges sqNodes) : ℚ) - 1) :=
  ⟨by decide, (claim4_degree_centrality sqEdges sqNodes (Val.vstr "A")).1 (by decide)⟩

/-- Counterexample to C5 as stated: a built graph may contain a self-loop, and
then a node's degree centrality can exceed 1 (here A has degree 3 in a
2-node graph, centrality 3). -/
theorem claim5_selfloop_counterexample :
    1 < degree_centrality (create_graph loopEdges pairNodes) (Val.vstr "A") := by
  have h1 : degree (create_graph loopEdges pairNodes) (Val.vstr "A") = 3 := by decide
  have h2 : numberOfNodes (create_graph loopEdges pairNodes) = 2 := by decide
  unfold degree_centrality
  rw [h1, h2]
  norm_num

/-- Claim C5 as amended: on a built graph without self-loops every node's
degree centrality lies in [0, 1], and on a complete built graph every
node's degree centrality equals 1. -/
theorem claim5_degree_centrality_bounds (eds nds : List Row) (v : Val)
    (hv : v ∈ nodeIds (create_graph eds nds)) :
    (noSelfLoops (create_graph eds nds) →
      0 ≤ degree_centrality (create_graph eds nds) v ∧
        degree_centrality (create_graph eds nds) v ≤ 1) ∧
    (IsComplete (create_graph eds nds) → degree_centrality (create_graph eds nds) v = 1) :=
  dc_bounds (create_graph eds nds) v (wf_create_graph eds nds) hv

/-- Witness for C5: the triangle is a complete built graph and node A's degree
centrality equals 1. -/
theorem claim5_degree_centrality_bounds_witness :
    Val.vstr "A" ∈ nodeIds (create_graph triEdges triNodes) ∧
    IsComplete (create_graph triEdges triNodes) ∧
    degree_centrality (create_graph triEdges triNodes) (Val.vstr "A") = 1 :=
  ⟨by decide, by decide,
    (claim5_degree_centrality_bounds triEdges triNodes (Val.vstr "A") (by decide)).2 (by decide)⟩

/-- Claim C6: if either fetch/parse fails, `load_data` returns `(None, None)`
and the caller's guard skips rendering; the two outputs are never present
one without the other. -/
theorem claim6_load_fails_as_unit (ef nf : Except String (List Row)) :
    ((fetchOk ef = false ∨ fetchOk nf = false) →
      load_data ef nf = (none, none) ∧ renderGate (load_data ef nf) = false) ∧
    ((load_data ef nf).1.isSome ↔ (load_data ef nf).2.isSome) := by
  cases ef <;> cases nf <;> simp [load_data, fetchOk, renderGate]

/-- Witness for C6: a failed edges fetch with a successful nodes fetch yields
`(None, None)` and no rendering. -/
theorem claim6_load_fails_as_unit_witness :
    load_data (Except.error "fetch failed") (Except.ok []) = (none, none) ∧
    renderGate (load_data (Except.error "fetch failed") (Except.ok [])) = false :=
  (claim6_load_fails_as_unit (Except.error "fetch failed") (Except.ok [])).1 (Or.inl rfl)

/-- Claim C7: two runs of the build-and-metrics pipeline on identical tables
under different hidden random states yield identical density, identical
per-node degree centrality, and identical per-node betweenness centrality;
only the community partition (and its modularity score) can depend on the
run's random state. -/
theorem claim7_pipeline_deterministic (eds nds : List Row) (s1 s2 : Nat) :
    (pipeline eds nds s1).density_val = (pipeline eds nds s2).density_val ∧
    (pipeline eds nds s1).degree_dict = (pipeline eds nds s2).degree_dict ∧
    (pipeline eds nds s1).betweenness_dict = (pipeline eds nds s2).betweenness_dict :=
  ⟨rfl, rfl, rfl⟩

/-- Claim C8: `create_graph` is total and rejects no row by validation — every
node row's resolved identifier becomes a node, and an edge row is skipped
only by the endpoint-membership check: whenever both resolved endpoints
are nodes, the pair is an edge of the built graph. -/
theorem claim8_no_row_validation (eds nds : List Row) :
    (∀ r ∈ nds, resolveNodeId r ∈ nodeIds (create_graph eds nds)) ∧
    (∀ r ∈ eds, hasNode (create_graph eds nds) (resolveSource r) →
      hasNode (create_graph eds nds) (resolveTarget r) →
      pairMem (create_graph eds nds) (resolveSource r) (resolveTarget r)) := by
  constructor
  · intro r hr
    unfold create_graph nodeIds
    rw [nodes_foldl_addEdgeRow]
    exact resolveNodeId_mem_foldl nds emptyGraph r hr
  · intro r hr hs ht
    unfold create_graph
    unfold hasNode nodeIds create_graph at hs ht
    rw [nodes_foldl_addEdgeRow] at hs ht
    exact pairMem_foldl_addEdgeRow eds _ r hr hs ht

/-- Witness for C8: on tables with mixed-case and missing columns (including an
entirely empty node row), every node row still yields a node and the
resolvable edge row still yields an edge. -/
theorem claim8_no_row_validation_witness :
    resolveNodeId ([] : Row) ∈ nodeIds (create_graph messyEdges messyNodes) ∧
    pairMem (create_graph messyEdges messyNodes)
      (resolveSource [("source", Val.vstr "A"), ("Target", Val.vstr "B")])
      (resolveTarget [("source", Val.vstr "A"), ("Target", Val.vstr "B")]) :=
  ⟨(claim8_no_row_validation messyEdges messyNodes).1 ([] : Row) (by decide),
    (claim8_no_row_validation messyEdges messyNodes).2
      [("source", Val.vstr "A"), ("Target", Val.vstr "B")]
      (by decide) (by decide) (by decide)⟩

/-- Claim C9: a self-loop edge row whose identifier is a known node passes the
membership check, so the built graph contains a self-loop; the density and
degree of the metrics stage are then computed over a non-simple graph
(here density is 2 and the degree of A is 3, with 2 nodes and 2 stored
edges). -/
theorem claim9_selfloop_added :
    pairMem (create_graph loopEdges pairNodes) (Val.vstr "A") (Val.vstr "A") ∧
    (create_graph loopEdges pairNodes).edges
      = [(Val.vstr "A", Val.vstr "A", Val.vint 2), (Val.vstr "A", Val.vstr "B", Val.vint 1)] ∧
    ¬ noSelfLoops (create_graph loopEdges pairNodes) ∧
    degree (create_graph loopEdges pairNodes) (Val.vstr "A") = 3 ∧
    density (create_graph loopEdges pairNodes) = 2 := by
  refine ⟨by decide, by decide, by decide, by decide, ?_⟩
  have h1 : numberOfEdges (create_graph loopEdges pairNodes) = 2 := by decide
  have h2 : numberOfNodes (create_graph loopEdges pairNodes) = 2 := by decide
  unfold density
  rw [h1, h2]
  norm_num

/-- Counterexample to C10 as stated: a node table whose lowercase `id` column
holds the falsy identifier 0 yields a node under 0 (Python `a or b`
returns `b` whenever `a` is falsy, whatever `b` is), not the node `None`
claimed. -/
theorem claim10_falsy_id_counterexample :
    hasNode (create_graph [] lowerZeroNodes) (Val.vint 0) ∧
    ¬ hasNode (create_graph [] lowerZeroNodes) Val.vnone := by
  decide

/-- Claim C10 as amended: a node row with falsy `Id` resolves to the value of
the lowercase `id` lookup, whatever it is; rows where that lookup is
absent (hence `None`) collapse onto the single node `None` labelled
"None", while a present falsy `id` value (such as 0) becomes a node under
that value. -/
theorem claim10_falsy_id_fallback :
    (∀ r : Row, (rowGet r "Id").truthy = false → resolveNodeId r = rowGet r "id") ∧
    (create_graph [] upperZeroNodes).nodes = [(Val.vnone, Val.vstr "None")] ∧
    hasNode (create_graph [] lowerZeroNodes) (Val.vint 0) :=
  ⟨fun r h => by simp [resolveNodeId, pyOr, h], by decide, by decide⟩

/-- Witness for C10: the row with `Id` 0 has falsy `Id` and resolves to its
(absent) lowercase `id` lookup, i.e. `None`. -/
theorem claim10_falsy_id_fallback_witness :
    (rowGet [("Id", Val.vint 0)] "Id").truthy = false ∧
    resolveNodeId [("Id", Val.vint 0)] = rowGet [("Id", Val.vint 0)] "id" :=
  ⟨by decide, claim10_falsy_id_fallback.1 [("Id", Val.vint 0)] (by decide)⟩

end SNA
